import Mathlib

/-!
Verification of the knock-knock joke server (`server.cpp`).

Strings on the wire are byte sequences; we model them as `List Nat`
(byte values).  The transport, the string utilities, the dialogue engine
(`play_joke`), the session loop (`handle_client`) and the idle-shutdown
monitor of `main` are embedded as pure Lean functions; client input is a
list of received lines (an empty list models EOF / connection loss) and
the random source is a list of draws.
-/

namespace KnockServer

/-- Byte strings: each element is one byte value. -/
abbrev Str := List Nat

/-- Convert a Lean string literal (ASCII) to its byte list. -/
def str (s : String) : Str := s.data.map Char.toNat

/-- Byte value of the apostrophe character. -/
def apos : Nat := 39

/-- Byte value of the double quote character. -/
def quot : Nat := 34

-- ----------------------------- I/O utilities ----------------------------

/-- Embedding of `recv_line`, reading from a byte stream (`List Nat`).
Mirrors the loop of `server.cpp` lines 130-142: the accumulated line is
`acc`; a carriage return (13) is skipped, a newline (10) ends the line, any
other byte is appended and, once the line length exceeds 4096, the line is
cut off and treated as complete.  An exhausted stream models `recv`
returning `<= 0`: the call fails (`none`), never yielding a partial line.
Returns the line together with the unconsumed remainder of the stream. -/
def recvLineAux (acc : Str) : List Nat → Option (Str × List Nat)
  | [] => none
  | ch :: rest =>
    if ch = 13 then recvLineAux acc rest
    else if ch = 10 then some (acc, rest)
    else
      let acc' := acc ++ [ch]
      if acc'.length > 4096 then some (acc', rest)
      else recvLineAux acc' rest

/-- Embedding of `recv_line(fd, line)`: `line.clear()` then the read loop. -/
def recv_line (stream : List Nat) : Option (Str × List Nat) :=
  recvLineAux [] stream

-- --------------------------- String utilities ---------------------------

/-- Whitespace set of `trim` in the source: `" \t\r\n"`. -/
def isWs (b : Nat) : Bool := decide (b = 32 ∨ b = 9 ∨ b = 13 ∨ b = 10)

/-- Embedding of `trim` (`server.cpp` lines 145-150): drop leading and
trailing characters drawn from `" \t\r\n"`. -/
def trim (s : Str) : Str :=
  ((s.dropWhile isWs).reverse.dropWhile isWs).reverse

/-- Embedding of `tolower` on one byte: ASCII uppercase maps to lowercase,
every other byte is unchanged. -/
def toLowerByte (b : Nat) : Nat :=
  if 65 ≤ b ∧ b ≤ 90 then b + 32 else b

/-- Embedding of `lower` (`server.cpp` lines 153-156). -/
def lower (s : Str) : Str := s.map toLowerByte

/-- Embedding of `iequals` (`server.cpp` lines 159-161): case-insensitive
equality after trimming. -/
def iequals (a b : Str) : Bool := lower (trim a) == lower (trim b)

-- quick sanity checks of the embedding on concrete data
example : str "ab" = [97, 98] := by decide
example : trim (str "  hi ") = str "hi" := by decide
example : iequals (str "  WHO ") (str "who") = true := by decide
example : iequals (str "who") (str "whom") = false := by decide
example : recv_line (str "ab" ++ [13, 10] ++ str "c") =
    some (str "ab", str "c") := by decide
example : recv_line (str "ab") = none := by decide

-- ------------------------------ Joke model ------------------------------

/-- Embedding of `struct Joke`. -/
structure Joke where
  setup : Str
  punchline : Str
deriving DecidableEq

-- ------------------------- Protocol line constants ----------------------

/-- The literal `"Who's there?"` (`expect1`). -/
def whosThere : Str := str "Who" ++ [apos] ++ str "s there?"

/-- The prompt `"Knock knock! <input>"`. -/
def knockPrompt : Str := str "Knock knock! <input>"

/-- The correction line `"You are supposed to say, \"<expected>\". Let's try
again."` sent on a wrong reply. -/
def correctionLine (expected : Str) : Str :=
  str "You are supposed to say, " ++ [quot] ++ expected ++ [quot] ++
    str ". Let" ++ [apos] ++ str "s try again."

/-- The prompt `setup + " <input>"`. -/
def setupPrompt (setup : Str) : Str := setup ++ str " <input>"

/-- The expected second reply `expect2 = setup + " who?"`. -/
def whoAck (setup : Str) : Str := setup ++ str " who?"

/-- The line `"I have no more jokes to tell."`. -/
def noMoreJokes : Str := str "I have no more jokes to tell."

/-- The prompt `"Would you like to listen to another? (Y/N) <input>"`. -/
def ynPrompt : Str := str "Would you like to listen to another? (Y/N) <input>"

/-- The reminder `"Please reply with Y or N."`. -/
def ynReminder : Str := str "Please reply with Y or N."

-- --------------------------- Knock-knock logic --------------------------

/-- The `avail` vector built at the top of `play_joke` (`server.cpp` lines
173-177): indices of the catalog not yet in `told`, in increasing order. -/
def availOf (jokes : List Joke) (told : Finset Nat) : List Nat :=
  (List.range jokes.length).filter (fun i => i ∉ told)

/-- The `AwaitKnockAck` read loop of `play_joke` (`server.cpp` lines
196-202), acting on the list of client reply lines.  Yields the correction
lines it sends (a correction naming `"Who's there?"` followed by a fresh
knock prompt, once per wrong reply) and, on a match, the unread client
lines; `none` models `recv_line` failing (connection lost). -/
def knockLoop : List Str → List Str × Option (List Str)
  | [] => ([], none)
  | resp :: rest =>
    if iequals resp whosThere then ([], some rest)
    else
      let res := knockLoop rest
      (correctionLine whosThere :: knockPrompt :: res.1, res.2)

/-- Result of one `play_joke` call. -/
structure JokeRes where
  /-- The `bool` returned by `play_joke`. -/
  ok : Bool
  /-- `session->told_jokes` after the call. -/
  told : Finset Nat
  /-- The successive values taken by `idx` (`server.cpp` line 186), the
  selected joke of each self-restart, outermost first. -/
  sels : List Nat
  /-- The lines passed to `send_line`, in order. -/
  out : List Str
  /-- The client lines not yet consumed by `recv_line`. -/
  inp : List Str
  /-- The random draws not yet consumed. -/
  rng : List Nat
deriving DecidableEq

lemma availOf_lt {jokes : List Joke} {told : Finset Nat} {i : Nat}
    (h : i ∈ availOf jokes told) : i < jokes.length := by
  have := List.of_mem_filter h
  have hr := List.mem_of_mem_filter h
  exact List.mem_range.mp hr

lemma availOf_not_told {jokes : List Joke} {told : Finset Nat} {i : Nat}
    (h : i ∈ availOf jokes told) : i ∉ told := by
  have := List.of_mem_filter h
  simpa using this

/-- Total list indexing with default, written structurally so that it
unfolds cleanly; models `v[i]` on a C++ vector at an in-bounds index. -/
def nthD : List Nat → Nat → Nat
  | [], _ => 0
  | a :: _, 0 => a
  | _ :: l, n + 1 => nthD l n

/-- Total catalog indexing; models `jokes[idx]` at an in-bounds index. -/
def jokeAt : List Joke → Nat → Joke
  | [], _ => ⟨[], []⟩
  | j :: _, 0 => j
  | _ :: l, n + 1 => jokeAt l n

/-- First random draw; models calling the distribution on the session RNG. -/
def draw : List Nat → Nat
  | [] => 0
  | r :: _ => r

lemma nthD_mem {l : List Nat} {n : Nat} (h : n < l.length) : nthD l n ∈ l := by
  induction l generalizing n with
  | nil => simp at h
  | cons a l ih =>
    cases n with
    | zero => simp [nthD]
    | succ n =>
      simp only [List.length_cons, Nat.succ_lt_succ_iff] at h
      exact List.mem_cons_of_mem _ (ih h)

lemma nthD_mod_mem {l : List Nat} (h : l ≠ []) (n : Nat) :
    nthD l (n % l.length) ∈ l :=
  nthD_mem (Nat.mod_lt _ (List.length_pos.mpr h))

lemma availOf_insert_eq (jokes : List Joke) (told : Finset Nat) (idx : Nat) :
    availOf jokes (insert idx told) =
      (availOf jokes told).filter (fun i => !(i == idx)) := by
  unfold availOf
  rw [List.filter_filter]
  apply List.filter_congr
  intro i _
  by_cases hi : i ∈ told <;> by_cases hx : i = idx <;>
    simp [Finset.mem_insert, hi, hx]

lemma length_filter_lt_of_mem {l : List Nat} {p : Nat → Bool} {a : Nat}
    (ha : a ∈ l) (hpa : p a = false) : (l.filter p).length < l.length := by
  induction l with
  | nil => cases ha
  | cons b l ih =>
    rcases List.mem_cons.mp ha with hb | hb
    · subst hb
      rw [List.filter_cons, hpa]
      simp only [cond_false, List.length_cons]
      exact Nat.lt_succ_of_le (List.length_filter_le _ _)
    · rw [List.filter_cons]
      cases hpb : p b
      · simp only [cond_false, List.length_cons]
        exact Nat.lt_succ_of_lt (ih hb)
      · simp only [cond_true, List.length_cons]
        exact Nat.succ_lt_succ (ih hb)

lemma availOf_insert_length_lt {jokes : List Joke} {told : Finset Nat}
    {idx : Nat} (hmem : idx ∈ availOf jokes told) :
    (availOf jokes (insert idx told)).length < (availOf jokes told).length := by
  rw [availOf_insert_eq]
  exact length_filter_lt_of_mem hmem (by simp)

/-- Embedding of `play_joke` (`server.cpp` lines 171-216).  The session
state is the `told` set; `rng` supplies the random draws (one per
selection: the draw `r` picks `avail[r % avail.size()]`, so every choice of
the uniform distribution is realised by some draw); `inp` is the list of
client reply lines, an exhausted list modelling connection loss.  Sends
always succeed (output is recorded), reads fail exactly when `inp` is
exhausted.  On a wrong second reply the source emits the correction and
calls itself (`return play_joke(session)`, line 210), which is embedded as
the recursive call on the enlarged `told` set. -/
def play_joke (jokes : List Joke) (told : Finset Nat) (rng : List Nat)
    (inp : List Str) : JokeRes :=
  if h : availOf jokes told = [] then
    ⟨false, told, [], [noMoreJokes], inp, rng⟩
  else
    let avail := availOf jokes told
    let idx := nthD avail (draw rng % avail.length)
    let told' := insert idx told
    let jk := jokeAt jokes idx
    match knockLoop inp with
    | (louts, none) =>
      ⟨false, told', [idx], knockPrompt :: louts, [], rng.tail⟩
    | (louts, some inp1) =>
      match inp1 with
      | [] =>
        ⟨false, told', [idx],
          knockPrompt :: louts ++ [setupPrompt jk.setup], [], rng.tail⟩
      | resp2 :: inp2 =>
        if iequals resp2 (whoAck jk.setup) then
          ⟨true, told', [idx],
            knockPrompt :: louts ++ [setupPrompt jk.setup, jk.punchline],
            inp2, rng.tail⟩
        else
          let res := play_joke jokes told' rng.tail inp2
          ⟨res.ok, res.told, idx :: res.sels,
            knockPrompt :: louts ++
              [setupPrompt jk.setup, correctionLine (whoAck jk.setup)] ++
              res.out,
            res.inp, res.rng⟩
termination_by (availOf jokes told).length
decreasing_by
  exact availOf_insert_length_lt (nthD_mod_mem h (draw rng))

lemma knockLoop_some_lt {inp louts inp1} (h : knockLoop inp = (louts, some inp1)) :
    inp1.length < inp.length := by
  induction inp generalizing louts with
  | nil => simp [knockLoop] at h
  | cons c rest ih =>
    by_cases hc : iequals c whosThere
    · simp [knockLoop, hc] at h
      simp [← h.2]
    · rcases hkl : knockLoop rest with ⟨outs, r⟩
      simp [knockLoop, hc, hkl] at h
      have := ih (by rw [hkl, h.2])
      exact Nat.lt_succ_of_lt this

/-- Core properties of one `play_joke` call: `told` only grows and ends as
the old `told` plus the selected indices; the selections are pairwise
distinct, not previously told, and in range of the catalog; and client
input is only consumed, never produced. -/
lemma play_joke_props (jokes : List Joke) (told : Finset Nat) (rng : List Nat)
    (inp : List Str) :
    told ⊆ (play_joke jokes told rng inp).told ∧
    (play_joke jokes told rng inp).told =
      told ∪ (play_joke jokes told rng inp).sels.toFinset ∧
    (play_joke jokes told rng inp).sels.Nodup ∧
    (∀ i ∈ (play_joke jokes told rng inp).sels, i ∉ told ∧ i < jokes.length) ∧
    (play_joke jokes told rng inp).inp.length ≤ inp.length := by
  induction told, rng, inp using play_joke.induct jokes with
  | case1 told rng inp h =>
    rw [play_joke.eq_def]
    simp [h]
  | case2 told rng inp h louts hkl =>
    have hmem := nthD_mod_mem h (draw rng)
    rw [play_joke.eq_def]
    simp only [h, dif_neg, not_false_iff, hkl]
    refine ⟨Finset.subset_insert _ _, ?_, by simp, ?_, by simp⟩
    · rw [Finset.union_comm]
      ext j
      simp
    · intro i hi
      simp at hi
      subst hi
      exact ⟨availOf_not_told hmem, availOf_lt hmem⟩
  | case3 told rng inp h louts hkl =>
    have hmem := nthD_mod_mem h (draw rng)
    rw [play_joke.eq_def]
    simp only [h, dif_neg, not_false_iff, hkl]
    refine ⟨Finset.subset_insert _ _, ?_, by simp, ?_, by simp⟩
    · rw [Finset.union_comm]
      ext j
      simp
    · intro i hi
      simp at hi
      subst hi
      exact ⟨availOf_not_told hmem, availOf_lt hmem⟩
  | case4 told rng inp h avail idx jk louts resp rest hresp hkl =>
    have hmem := nthD_mod_mem h (draw rng)
    have hlt := knockLoop_some_lt hkl
    rw [play_joke.eq_def]
    simp only [h, dif_neg, not_false_iff, hkl, hresp, if_pos]
    refine ⟨Finset.subset_insert _ _, ?_, by simp, ?_, ?_⟩
    · rw [Finset.union_comm]
      ext j
      simp
    · intro i hi
      simp at hi
      subst hi
      exact ⟨availOf_not_told hmem, availOf_lt hmem⟩
    · simp at hlt ⊢
      omega
  | case5 told rng inp h avail idx told2 jk louts resp rest hresp hkl ih =>
    have hmem := nthD_mod_mem h (draw rng)
    have hlt := knockLoop_some_lt hkl
    rw [play_joke.eq_def]
    simp only [h, dif_neg, not_false_iff, hkl, hresp, if_neg]
    unfold_let avail idx told2 jk at ih
    obtain ⟨ihsub, ihtold, ihnd, ihsels, ihlen⟩ := ih
    set ix := nthD (availOf jokes told) (draw rng % (availOf jokes told).length)
      with hix
    set res := play_joke jokes (insert ix told) rng.tail rest with hres
    have hixtold : ix ∉ told := availOf_not_told hmem
    have hixlt : ix < jokes.length := availOf_lt hmem
    have hselsins : ∀ i ∈ res.sels, i ∉ insert ix told := fun i hi => (ihsels i hi).1
    refine ⟨?_, ?_, ?_, ?_, ?_⟩
    · exact (Finset.subset_insert _ _).trans ihsub
    · rw [ihtold]
      ext j
      simp [Finset.mem_insert, Finset.mem_union]
    · refine List.nodup_cons.mpr ⟨?_, ihnd⟩
      intro hmemsel
      exact hselsins ix hmemsel (Finset.mem_insert_self _ _)
    · intro i hi
      rcases List.mem_cons.mp hi with hi | hi
      · subst hi; exact ⟨hixtold, hixlt⟩
      · refine ⟨?_, (ihsels i hi).2⟩
        intro hcon
        exact hselsins i hi (Finset.mem_insert_of_mem hcon)
    · simp at hlt ⊢
      omega

-- ------------------------------ Session loop ----------------------------

/-- The Y/N continuation loop of `handle_client` (`server.cpp` lines
248-257).  Each iteration sends the Y/N prompt and reads one line; `N`/`no`
ends the session, `Y`/`yes` continues it, anything else sends the reminder
and iterates.  Yields the lines sent and either `none` (connection lost) or
`some (continue?, unread client lines)`. -/
def askLoop : List Str → List Str × Option (Bool × List Str)
  | [] => ([ynPrompt], none)
  | choice :: rest =>
    if iequals choice (str "N") || iequals choice (str "no") then
      ([ynPrompt], some (false, rest))
    else if iequals choice (str "Y") || iequals choice (str "yes") then
      ([ynPrompt], some (true, rest))
    else
      let res := askLoop rest
      (ynPrompt :: ynReminder :: res.1, res.2)

lemma askLoop_some_lt {inp outs b inp1}
    (h : askLoop inp = (outs, some (b, inp1))) : inp1.length < inp.length := by
  induction inp generalizing outs with
  | nil => simp [askLoop] at h
  | cons c rest ih =>
    by_cases hn : iequals c (str "N") || iequals c (str "no")
    · simp [askLoop, hn] at h
      simp [← h.2.2]
    · by_cases hy : iequals c (str "Y") || iequals c (str "yes")
      · simp [askLoop, hn, hy] at h
        simp [← h.2.2]
      · rcases hal : askLoop rest with ⟨outs', r⟩
        simp [askLoop, hn, hy, hal] at h
        have := ih (by rw [hal, h.2])
        exact Nat.lt_succ_of_lt this

/-- Result of a whole session (`handle_client`). -/
structure SessRes where
  /-- `session->told_jokes` when the session ends. -/
  told : Finset Nat
  /-- All joke indices selected during the session, in order. -/
  sels : List Nat
  /-- All lines sent during the session, in order. -/
  out : List Str
deriving DecidableEq

/-- Embedding of the conversation loop of `handle_client` (`server.cpp`
lines 243-258): run `play_joke`; if it fails (no joke left or connection
lost) the session ends; otherwise run the Y/N loop and either end or loop
back to another `play_joke`. -/
def handle_client (jokes : List Joke) (told : Finset Nat) (rng : List Nat)
    (inp : List Str) : SessRes :=
  let r := play_joke jokes told rng inp
  if r.ok then
    match ha : askLoop r.inp with
    | (aouts, none) => ⟨r.told, r.sels, r.out ++ aouts⟩
    | (aouts, some (false, _)) => ⟨r.told, r.sels, r.out ++ aouts⟩
    | (aouts, some (true, inp2)) =>
      let s := handle_client jokes r.told r.rng inp2
      ⟨s.told, r.sels ++ s.sels, r.out ++ aouts ++ s.out⟩
  else ⟨r.told, r.sels, r.out⟩
termination_by inp.length
decreasing_by
  have h1 := (play_joke_props jokes told rng inp).2.2.2.2
  have h2 := askLoop_some_lt ha
  unfold_let r at h2
  omega

-- ------------------------- Idle shutdown monitor ------------------------

/-- One observation of the accept loop of `main` (`server.cpp` lines
307-358): either a 1-second `poll` timeout tick, carrying the current time
(in seconds, from the monotonic clock) and the observed value of
`active_clients`, or an accepted connection. -/
inductive MEvent where
  /-- A `poll` timeout (`pr == 0`): the idle condition is checked. -/
  | tick (now : Nat) (active : Nat)
  /-- A new client is accepted (`pr > 0` with `POLLIN`). -/
  | accept
deriving DecidableEq

/-- The idle-timer bookkeeping of `main` (`server.cpp` lines 303-304),
together with whether the loop has decided to shut the server down. -/
structure MState where
  /-- `timer_running`. -/
  timer_running : Bool
  /-- `zero_since`, in seconds. -/
  zero_since : Nat
  /-- Whether the `break` of line 348 has happened. -/
  shutdown : Bool
deriving DecidableEq

/-- One iteration of the accept loop of `main` acting on the idle-timer
state (`server.cpp` lines 311-353): accepting a client resets the timer
(line 323); a tick with `active_clients == 0` starts the timer if stopped,
or shuts down once at least 10 seconds have elapsed since it started; a
tick observing a positive count stops the timer.  After the shutdown
`break` nothing further happens. -/
def mstep (s : MState) (e : MEvent) : MState :=
  if s.shutdown then s
  else
    match e with
    | .accept => { s with timer_running := false }
    | .tick now active =>
      if active = 0 then
        if ¬ s.timer_running then
          { s with timer_running := true, zero_since := now }
        else if 10 ≤ now - s.zero_since then { s with shutdown := true }
        else s
      else { s with timer_running := false }

/-- Run the accept loop over a sequence of observations. -/
def mrun (s : MState) (evs : List MEvent) : MState := evs.foldl mstep s

/-- Initial idle-timer state (`server.cpp` lines 303-304). -/
def minit (t0 : Nat) : MState := ⟨false, t0, false⟩

/-- Recogniser for a tick that observed `active_clients == 0`. -/
def zeroTick : MEvent → Bool
  | .tick _ 0 => true
  | _ => false

lemma mrun_append_one (s : MState) (evs : List MEvent) (e : MEvent) :
    mrun s (evs ++ [e]) = mstep (mrun s evs) e := by
  simp [mrun]

/-- Invariant of the accept loop: while the timer is running, the trace
ends with a zero-observation tick at time `zero_since` followed only by
zero-observation ticks; and once shutdown has happened, the trace contains
a run of zero-observation ticks spanning at least 10 seconds. -/
lemma mrun_invariant (t0 : Nat) (evs : List MEvent) :
    ((mrun (minit t0) evs).shutdown = false →
      (mrun (minit t0) evs).timer_running = true →
      ∃ pre suf, evs = pre ++ MEvent.tick (mrun (minit t0) evs).zero_since 0 :: suf ∧
        ∀ e ∈ suf, zeroTick e = true) ∧
    ((mrun (minit t0) evs).shutdown = true →
      ∃ pre t1 mid t2 post,
        evs = pre ++ MEvent.tick t1 0 :: (mid ++ MEvent.tick t2 0 :: post) ∧
          t1 + 10 ≤ t2 ∧ ∀ e ∈ mid, zeroTick e = true) := by
  induction evs using List.reverseRecOn with
  | nil => simp [mrun, minit]
  | append_singleton evs e ih =>
    rw [mrun_append_one]
    obtain ⟨ih1, ih2⟩ := ih
    by_cases hsd : (mrun (minit t0) evs).shutdown
    · -- already shut down: the state is frozen
      obtain ⟨pre, t1, mid, t2, post, hdec, hle, hmid⟩ := ih2 hsd
      constructor
      · intro hsd' _
        rw [mstep.eq_def, if_pos hsd] at hsd'
        rw [hsd] at hsd'
        cases hsd'
      · intro _
        exact ⟨pre, t1, mid, t2, post ++ [e], by rw [hdec]; simp, hle, hmid⟩
    · have hsdf : (mrun (minit t0) evs).shutdown = false := by
        simpa using hsd
      rw [mstep.eq_def, if_neg hsd]
      cases e with
      | accept =>
        dsimp only
        constructor
        · intro _ hrun
          simp at hrun
        · intro hcon
          rw [hsdf] at hcon
          cases hcon
      | tick now active =>
        dsimp only
        rcases Nat.eq_zero_or_pos active with hz | hpos
        · subst hz
          rw [if_pos rfl]
          by_cases hrun : (mrun (minit t0) evs).timer_running = true
          · rw [if_neg (by simp [hrun])]
            by_cases helapsed : 10 ≤ now - (mrun (minit t0) evs).zero_since
            · -- the shutdown transition
              rw [if_pos helapsed]
              obtain ⟨pre, suf, hdec, hsuf⟩ := ih1 hsdf hrun
              constructor
              · intro hcon
                simp at hcon
              · intro _
                refine ⟨pre, (mrun (minit t0) evs).zero_since, suf, now, [],
                  ?_, ?_, hsuf⟩
                · conv_lhs => rw [hdec]
                  simp
                · omega
            · rw [if_neg helapsed]
              constructor
              · intro _ _
                obtain ⟨pre, suf, hdec, hsuf⟩ := ih1 hsdf hrun
                refine ⟨pre, suf ++ [MEvent.tick now 0], ?_, ?_⟩
                · conv_lhs => rw [hdec]
                  simp
                · intro x hx
                  rcases List.mem_append.mp hx with hx | hx
                  · exact hsuf x hx
                  · simp at hx
                    subst hx
                    rfl
              · intro hcon
                rw [hsdf] at hcon
                cases hcon
          · rw [if_pos (by simp [hrun])]
            constructor
            · intro _ _
              exact ⟨evs, [], by simp, by simp⟩
            · intro hcon
              simp at hcon
              rw [hsdf] at hcon
              cases hcon
        · rw [if_neg (by omega)]
          constructor
          · intro _ hcon
            simp at hcon
          · intro hcon
            simp at hcon
            rw [hsdf] at hcon
            cases hcon

-- --------------------- String comparison lemmas (C7) --------------------

lemma isWs_toLowerByte (b : Nat) : isWs (toLowerByte b) = isWs b := by
  unfold isWs toLowerByte
  rcases le_or_lt 65 b with h1 | h1
  · rcases le_or_lt b 90 with h2 | h2
    · rw [if_pos ⟨h1, h2⟩, decide_eq_decide]
      omega
    · rw [if_neg (by omega)]
  · rw [if_neg (by omega)]

lemma lower_dropWhile (s : Str) :
    (lower s).dropWhile isWs = lower (s.dropWhile isWs) := by
  unfold lower
  have hfe : isWs ∘ toLowerByte = isWs := funext fun b => isWs_toLowerByte b
  rw [List.dropWhile_map, hfe]

lemma trim_lower (s : Str) : trim (lower s) = lower (trim s) := by
  unfold trim
  rw [lower_dropWhile]
  unfold lower
  have hfe : isWs ∘ toLowerByte = isWs := funext fun b => isWs_toLowerByte b
  rw [← List.map_reverse, List.dropWhile_map, hfe, ← List.map_reverse]

lemma dropWhile_ws_append {ws l : Str} (h : ∀ b ∈ ws, isWs b = true) :
    (ws ++ l).dropWhile isWs = l.dropWhile isWs := by
  induction ws with
  | nil => simp
  | cons a ws ih =>
    simp only [List.cons_append, List.dropWhile_cons]
    rw [h a (by simp)]
    simp only [if_pos trivial]
    exact ih fun b hb => h b (by simp [hb])

lemma dropWhile_append_of_ne {p : Nat → Bool} {l1 : Str} (l2 : Str)
    (h : l1.dropWhile p ≠ []) :
    (l1 ++ l2).dropWhile p = l1.dropWhile p ++ l2 := by
  induction l1 with
  | nil => simp [List.dropWhile] at h
  | cons a l1 ih =>
    simp only [List.cons_append, List.dropWhile_cons] at h ⊢
    by_cases hp : p a = true
    · rw [hp] at h ⊢
      simp only [if_pos trivial] at h ⊢
      exact ih h
    · rw [Bool.not_eq_true] at hp
      rw [hp] at h ⊢
      simp at h ⊢

lemma trim_ws_left {ws l : Str} (h : ∀ b ∈ ws, isWs b = true) :
    trim (ws ++ l) = trim l := by
  unfold trim
  rw [dropWhile_ws_append h]

lemma trim_ws_right {ws l : Str} (h : ∀ b ∈ ws, isWs b = true) :
    trim (l ++ ws) = trim l := by
  unfold trim
  by_cases hl : l.dropWhile isWs = []
  · have hall : ∀ b ∈ l, isWs b = true := (List.dropWhile_eq_nil_iff).mp hl
    have hlw : (l ++ ws).dropWhile isWs = [] := by
      rw [List.dropWhile_eq_nil_iff]
      intro b hb
      rcases List.mem_append.mp hb with hb | hb
      · exact hall b hb
      · exact h b hb
    rw [hl, hlw]
  · rw [dropWhile_append_of_ne ws hl, List.reverse_append, dropWhile_ws_append]
    intro b hb
    exact h b (List.mem_reverse.mp hb)

-- ------------------------ Line transport lemmas -------------------------

lemma recvLineAux_bound {stream : List Nat} :
    ∀ {acc line rest : Str}, acc.length ≤ 4096 →
      recvLineAux acc stream = some (line, rest) → line.length ≤ 4097 := by
  induction stream with
  | nil =>
    intro acc line rest _ h
    simp [recvLineAux] at h
  | cons ch s ih =>
    intro acc line rest hacc h
    by_cases h13 : ch = 13
    · subst h13
      rw [recvLineAux, if_pos rfl] at h
      exact ih hacc h
    · by_cases h10 : ch = 10
      · subst h10
        rw [recvLineAux, if_neg (by omega), if_pos rfl] at h
        simp at h
        obtain ⟨h1, h2⟩ := h
        rw [← h1]
        omega
      · rw [recvLineAux, if_neg h13, if_neg h10] at h
        rcases Nat.lt_or_ge 4096 (acc ++ [ch]).length with hgt | hle
        · rw [if_pos hgt] at h
          simp at h
          obtain ⟨h1, h2⟩ := h
          rw [← h1]
          simp
          omega
        · rw [if_neg (by omega)] at h
          exact ih (by simpa using hle) h

lemma recvLineAux_no_cr {stream : List Nat} :
    ∀ {acc line rest : Str}, (13 ∈ acc → False) →
      recvLineAux acc stream = some (line, rest) → 13 ∈ line → False := by
  induction stream with
  | nil =>
    intro acc line rest _ h
    simp [recvLineAux] at h
  | cons ch s ih =>
    intro acc line rest hacc h
    by_cases h13 : ch = 13
    · subst h13
      rw [recvLineAux, if_pos rfl] at h
      exact ih hacc h
    · by_cases h10 : ch = 10
      · subst h10
        rw [recvLineAux, if_neg (by omega), if_pos rfl] at h
        simp at h
        rw [← h.1]
        exact hacc
      · rw [recvLineAux, if_neg h13, if_neg h10] at h
        have hacc2 : 13 ∈ acc ++ [ch] → False := by
          intro hm
          rcases List.mem_append.mp hm with hm | hm
          · exact hacc hm
          · simp at hm
            exact h13 hm.symm
        rcases Nat.lt_or_ge 4096 (acc ++ [ch]).length with hgt | hle
        · rw [if_pos hgt] at h
          simp at h
          rw [← h.1]
          exact hacc2
        · rw [if_neg (by omega)] at h
          exact ih hacc2 h

lemma recvLineAux_fits {s : List Nat} (hs : ∀ b ∈ s, b ≠ 10 ∧ b ≠ 13) :
    ∀ {acc : Str} {rest : List Nat}, acc.length + s.length ≤ 4096 →
      recvLineAux acc (s ++ 10 :: rest) = some (acc ++ s, rest) := by
  induction s with
  | nil =>
    intro acc rest _
    simp [recvLineAux]
  | cons ch s ih =>
    intro acc rest hlen
    have hch := hs ch (by simp)
    have hs2 : ∀ b ∈ s, b ≠ 10 ∧ b ≠ 13 := fun b hb => hs b (by simp [hb])
    rw [List.cons_append, recvLineAux, if_neg hch.2, if_neg hch.1,
      if_neg (by simp at hlen ⊢; omega)]
    rw [ih hs2 (by simp at hlen ⊢; omega)]
    simp

lemma recvLineAux_cap {s : List Nat} (hs : ∀ b ∈ s, b ≠ 10 ∧ b ≠ 13) :
    ∀ {acc : Str} (tail : List Nat), acc.length ≤ 4096 →
      4097 ≤ acc.length + s.length →
      recvLineAux acc (s ++ tail) =
        some (acc ++ s.take (4097 - acc.length),
          s.drop (4097 - acc.length) ++ tail) := by
  induction s with
  | nil =>
    intro acc tail h1 h2
    simp at h2
    omega
  | cons ch s ih =>
    intro acc tail h1 h2
    have hch := hs ch (by simp)
    have hs2 : ∀ b ∈ s, b ≠ 10 ∧ b ≠ 13 := fun b hb => hs b (by simp [hb])
    rw [List.cons_append, recvLineAux, if_neg hch.2, if_neg hch.1]
    rcases Nat.lt_or_ge acc.length 4096 with hlt | hge
    · rw [if_neg (by simp; omega)]
      rw [ih hs2 tail (by simp; omega) (by simp at h2 ⊢; omega)]
      have harith : 4097 - acc.length = (4096 - acc.length) + 1 := by omega
      have harith2 : 4097 - (acc ++ [ch]).length = 4096 - acc.length := by
        simp
      rw [harith, harith2, List.take_succ_cons, List.drop_succ_cons]
      simp
    · have hacc2 : acc.length = 4096 := by omega
      rw [if_pos (by simp; omega)]
      have harith : 4097 - acc.length = 1 := by omega
      rw [harith]
      simp

-- --------------------- Session loop unfolding lemmas --------------------

lemma handle_client_eq_fail {jokes : List Joke} {told : Finset Nat}
    {rng : List Nat} {inp : List Str}
    (h : (play_joke jokes told rng inp).ok = false) :
    handle_client jokes told rng inp =
      ⟨(play_joke jokes told rng inp).told, (play_joke jokes told rng inp).sels,
        (play_joke jokes told rng inp).out⟩ := by
  rw [handle_client.eq_def]
  simp [h]

lemma handle_client_eq_none {jokes : List Joke} {told : Finset Nat}
    {rng : List Nat} {inp : List Str} {aouts : List Str}
    (hok : (play_joke jokes told rng inp).ok = true)
    (ha : askLoop (play_joke jokes told rng inp).inp = (aouts, none)) :
    handle_client jokes told rng inp =
      ⟨(play_joke jokes told rng inp).told, (play_joke jokes told rng inp).sels,
        (play_joke jokes told rng inp).out ++ aouts⟩ := by
  rw [handle_client.eq_def]
  simp only [hok, if_pos]
  split
  · rename_i louts heq
    rw [ha] at heq
    cases heq
    rfl
  · rename_i louts snd heq
    rw [ha] at heq
    cases heq
  · rename_i louts inp2 heq
    rw [ha] at heq
    cases heq

lemma handle_client_eq_no {jokes : List Joke} {told : Finset Nat}
    {rng : List Nat} {inp : List Str} {aouts snd : List Str}
    (hok : (play_joke jokes told rng inp).ok = true)
    (ha : askLoop (play_joke jokes told rng inp).inp = (aouts, some (false, snd))) :
    handle_client jokes told rng inp =
      ⟨(play_joke jokes told rng inp).told, (play_joke jokes told rng inp).sels,
        (play_joke jokes told rng inp).out ++ aouts⟩ := by
  rw [handle_client.eq_def]
  simp only [hok, if_pos]
  split
  · rename_i louts heq
    rw [ha] at heq
    cases heq
  · rename_i louts snd2 heq
    rw [ha] at heq
    cases heq
    rfl
  · rename_i louts inp2 heq
    rw [ha] at heq
    cases heq

lemma handle_client_eq_yes {jokes : List Joke} {told : Finset Nat}
    {rng : List Nat} {inp : List Str} {aouts inp2 : List Str}
    (hok : (play_joke jokes told rng inp).ok = true)
    (ha : askLoop (play_joke jokes told rng inp).inp = (aouts, some (true, inp2))) :
    handle_client jokes told rng inp =
      ⟨(handle_client jokes (play_joke jokes told rng inp).told
          (play_joke jokes told rng inp).rng inp2).told,
        (play_joke jokes told rng inp).sels ++
          (handle_client jokes (play_joke jokes told rng inp).told
            (play_joke jokes told rng inp).rng inp2).sels,
        (play_joke jokes told rng inp).out ++ aouts ++
          (handle_client jokes (play_joke jokes told rng inp).told
            (play_joke jokes told rng inp).rng inp2).out⟩ := by
  rw [handle_client.eq_def]
  simp only [hok, if_pos]
  split
  · rename_i louts heq
    rw [ha] at heq
    cases heq
  · rename_i louts snd heq
    rw [ha] at heq
    cases heq
  · rename_i louts inp3 heq
    rw [ha] at heq
    cases heq
    rfl

/-- Session-level properties: over a whole session, `told` only grows, all
selections are pairwise distinct, previously untold and in range, and the
final `told` is the initial one plus the selections. -/
lemma handle_client_props (jokes : List Joke) (told : Finset Nat)
    (rng : List Nat) (inp : List Str) :
    told ⊆ (handle_client jokes told rng inp).told ∧
    (handle_client jokes told rng inp).sels.Nodup ∧
    (∀ i ∈ (handle_client jokes told rng inp).sels, i ∉ told ∧ i < jokes.length) ∧
    (handle_client jokes told rng inp).told =
      told ∪ (handle_client jokes told rng inp).sels.toFinset := by
  induction told, rng, inp using handle_client.induct jokes with
  | case1 told rng inp r hok aouts ha =>
    obtain ⟨psub, ptold, pnd, psels, _⟩ := play_joke_props jokes told rng inp
    rw [handle_client_eq_none hok ha]
    exact ⟨psub, pnd, psels, ptold⟩
  | case2 told rng inp r hok aouts snd ha =>
    obtain ⟨psub, ptold, pnd, psels, _⟩ := play_joke_props jokes told rng inp
    rw [handle_client_eq_no hok ha]
    exact ⟨psub, pnd, psels, ptold⟩
  | case3 told rng inp r hok aouts inp2 ha ih =>
    obtain ⟨psub, ptold, pnd, psels, _⟩ := play_joke_props jokes told rng inp
    obtain ⟨ssub, snd2, ssels, stold⟩ := ih
    rw [handle_client_eq_yes hok ha]
    unfold_let r at *
    refine ⟨?_, ?_, ?_, ?_⟩
    · exact psub.trans ssub
    · simp only [List.nodup_append]
      refine ⟨pnd, snd2, ?_⟩
      intro i hip his
      have hmem : i ∈ (play_joke jokes told rng inp).told := by
        rw [ptold]
        exact Finset.mem_union_right _ (List.mem_toFinset.mpr hip)
      exact (ssels i his).1 hmem
    · intro i hi
      rcases List.mem_append.mp hi with hi | hi
      · exact psels i hi
      · refine ⟨?_, (ssels i hi).2⟩
        intro hcon
        exact (ssels i hi).1 (psub hcon)
    · rw [stold, ptold]
      rw [List.toFinset_append, Finset.union_assoc]
  | case4 told rng inp r hok =>
    obtain ⟨psub, ptold, pnd, psels, _⟩ := play_joke_props jokes told rng inp
    rw [handle_client_eq_fail (by simpa using hok)]
    exact ⟨psub, pnd, psels, ptold⟩

-- ------------------------ Comparison transitivity -----------------------

lemma iequals_trans_ne {c a b : Str} (hca : iequals c a = true)
    (hab : iequals a b = false) : iequals c b = false := by
  simp only [iequals, beq_iff_eq] at hca ⊢
  simp only [iequals, beq_eq_false_iff_ne, ne_eq] at hab
  rw [hca]
  simpa using hab

lemma yes_imp_not_no {c : Str}
    (hY : (iequals c (str "Y") || iequals c (str "yes")) = true) :
    (iequals c (str "N") || iequals c (str "no")) = false := by
  have hY2 : iequals c (str "Y") = true ∨ iequals c (str "yes") = true := by
    simpa using hY
  rcases hY2 with h | h
  · rw [Bool.or_eq_false_iff]
    exact ⟨iequals_trans_ne h (by decide), iequals_trans_ne h (by decide)⟩
  · rw [Bool.or_eq_false_iff]
    exact ⟨iequals_trans_ne h (by decide), iequals_trans_ne h (by decide)⟩

-- -------------------- Knock-loop shift lemma (C3) -----------------------

/-- A wrong first reply only inserts one correction line and one fresh
knock prompt into the output right after the initial prompt; the result,
the `told` set, the selections, and the rest of the exchange are exactly
those of the run on the remaining input. -/
lemma play_joke_shift {jokes : List Joke} {told : Finset Nat} {rng : List Nat}
    {c : Str} {rest : List Str} (hav : availOf jokes told ≠ [])
    (hc : iequals c whosThere = false) :
    (play_joke jokes told rng rest).out =
      knockPrompt :: (play_joke jokes told rng rest).out.tail ∧
    play_joke jokes told rng (c :: rest) =
      ⟨(play_joke jokes told rng rest).ok, (play_joke jokes told rng rest).told,
        (play_joke jokes told rng rest).sels,
        knockPrompt :: correctionLine whosThere :: knockPrompt ::
          (play_joke jokes told rng rest).out.tail,
        (play_joke jokes told rng rest).inp,
        (play_joke jokes told rng rest).rng⟩ := by
  rcases hkl : knockLoop rest with ⟨louts, r2⟩
  have hklc : knockLoop (c :: rest) =
      (correctionLine whosThere :: knockPrompt :: louts, r2) := by
    simp [knockLoop, hc, hkl]
  rw [play_joke.eq_def jokes told rng (c :: rest),
    play_joke.eq_def jokes told rng rest, dif_neg hav, dif_neg hav, hklc, hkl]
  rcases r2 with _ | inp1
  · simp
  · rcases inp1 with _ | ⟨resp2, inp2⟩
    · simp
    · by_cases hresp : iequals resp2
        (whoAck (jokeAt jokes (nthD (availOf jokes told)
          (draw rng % (availOf jokes told).length))).setup) = true
      · simp [hresp]
      · simp only [Bool.not_eq_true] at hresp
        simp [hresp]

-- ----------------------------- Claim theorems ---------------------------

/-- Claim C1, evaluation of the code at the failing input: with the
two-joke catalog `[Boo, Moo]`, draws `[0, 0]` and client replies
`["Who's there?", "nope", "Who's there?"]`, the wrong second reply to the
selected joke 0 makes `play_joke` re-invoke itself, which selects the
DIFFERENT joke 1 (`sels = [0, 1]`, `told` ends as `{0, 1}`) and prompts
with joke 1's setup `"Moo <input>"` — instead of re-entering the
knock/who exchange for the same joke 0 as the claim (and the source's own
comment, line 209) states. -/
theorem claim_C1_divergence :
    play_joke [⟨ str "Boo", str "Boo hoo"⟩, ⟨ str "Moo", str "Cow says"⟩]
        ∅ [0, 0] [whosThere, str "nope", whosThere] =
      ⟨false, {0, 1}, [0, 1],
        [knockPrompt, setupPrompt (str "Boo"),
         correctionLine (whoAck (str "Boo")),
         knockPrompt, setupPrompt (str "Moo")], [], []⟩ := by
  simp +decide [play_joke, availOf, knockLoop]

/-- Claim C2: the `told` set only grows across one `play_joke` call and
across a whole session; no index of `told` is ever selected (all selected
indices were untold, and the selections are pairwise distinct, so no index
is selected twice); and the selected index is inserted into `told` before
any prompt of that joke goes out — witnessed by a connection that dies
right after the first prompt (`inp = []`): the output is just the knock
prompt, yet `told` already holds the selected index. -/
theorem claim_C2_told_monotone (jokes : List Joke) (told : Finset Nat)
    (rng : List Nat) (inp : List Str) :
    told ⊆ (play_joke jokes told rng inp).told ∧
    (∀ i ∈ (play_joke jokes told rng inp).sels, i ∉ told) ∧
    (play_joke jokes told rng inp).sels.Nodup ∧
    told ⊆ (handle_client jokes told rng inp).told ∧
    (∀ i ∈ (handle_client jokes told rng inp).sels, i ∉ told) ∧
    (handle_client jokes told rng inp).sels.Nodup ∧
    (availOf jokes told ≠ [] →
      (play_joke jokes told rng []).out = [knockPrompt] ∧
      (play_joke jokes told rng []).told =
        insert (nthD (availOf jokes told)
          (draw rng % (availOf jokes told).length)) told) := by
  obtain ⟨psub, _, pnd, psels, _⟩ := play_joke_props jokes told rng inp
  obtain ⟨ssub, snd2, ssels, _⟩ := handle_client_props jokes told rng inp
  refine ⟨psub, fun i hi => (psels i hi).1, pnd, ssub,
    fun i hi => (ssels i hi).1, snd2, ?_⟩
  intro hav
  rw [play_joke.eq_def]
  simp [hav, knockLoop]

/-- Claim C2 witness: a concrete instance of the conditional part. -/
theorem claim_C2_witness :
    availOf [⟨ str "Boo", str "Boo hoo"⟩] ∅ ≠ [] ∧
    (play_joke [⟨ str "Boo", str "Boo hoo"⟩] ∅ [0] []).out = [knockPrompt] ∧
    (play_joke [⟨ str "Boo", str "Boo hoo"⟩] ∅ [0] []).told =
      insert (nthD (availOf [⟨ str "Boo", str "Boo hoo"⟩] ∅)
        (draw [0] % (availOf [⟨ str "Boo", str "Boo hoo"⟩] ∅).length)) ∅ :=
  ⟨by decide,
    (claim_C2_told_monotone [⟨ str "Boo", str "Boo hoo"⟩] ∅ [0] []).2.2.2.2.2.2
      (by decide)⟩

/-- Claim C9: the self-restart recursion of `play_joke` makes at most
`jokes.length` selections in one call (its recursion depth is bounded by
the catalog size, whatever the client replies), because every restart
first inserts a fresh untold index into `told`; and when no untold index
remains, `play_joke` returns `false` immediately, with no selection, no
read, and only the informational line. -/
theorem claim_C9_bounded_recursion (jokes : List Joke) (told : Finset Nat)
    (rng : List Nat) (inp : List Str) :
    (play_joke jokes told rng inp).sels.length ≤ jokes.length ∧
    (availOf jokes told = [] →
      play_joke jokes told rng inp = ⟨false, told, [], [noMoreJokes], inp, rng⟩) := by
  constructor
  · obtain ⟨_, _, pnd, psels, _⟩ := play_joke_props jokes told rng inp
    have hsub : (play_joke jokes told rng inp).sels.toFinset ⊆
        Finset.range jokes.length := by
      intro i hi
      rw [Finset.mem_range]
      exact (psels i (List.mem_toFinset.mp hi)).2
    calc (play_joke jokes told rng inp).sels.length
        = (play_joke jokes told rng inp).sels.toFinset.card :=
          (List.toFinset_card_of_nodup pnd).symm
      _ ≤ (Finset.range jokes.length).card := Finset.card_le_card hsub
      _ = jokes.length := Finset.card_range _
  · intro h
    rw [play_joke.eq_def]
    simp [h]

/-- Claim C9 witness: with a one-joke catalog already fully told, the
engine reports no joke available without recursing. -/
theorem claim_C9_witness :
    availOf [⟨ str "Boo", str "Boo hoo"⟩] {0} = [] ∧
    play_joke [⟨ str "Boo", str "Boo hoo"⟩] {0} [0] [whosThere] =
      ⟨false, {0}, [], [noMoreJokes], [whosThere], [0]⟩ :=
  ⟨by decide,
    (claim_C9_bounded_recursion [⟨ str "Boo", str "Boo hoo"⟩] {0} [0]
      [whosThere]).2 (by decide)⟩

/-- Claim C4: when every catalog index is already in `told`, the next
`play_joke` call emits exactly `"I have no more jokes to tell."`, reports
no joke available (`false`), reads nothing (`inp` is returned untouched),
and the session loop then ends the session with no further output. -/
theorem claim_C4_exhaustion (jokes : List Joke) (told : Finset Nat)
    (rng : List Nat) (inp : List Str)
    (h : ∀ i < jokes.length, i ∈ told) :
    play_joke jokes told rng inp = ⟨false, told, [], [noMoreJokes], inp, rng⟩ ∧
    handle_client jokes told rng inp = ⟨told, [], [noMoreJokes]⟩ := by
  have hav : availOf jokes told = [] := by
    unfold availOf
    rw [List.filter_eq_nil_iff]
    intro i hi
    simpa using h i (List.mem_range.mp hi)
  have h1 : play_joke jokes told rng inp = ⟨false, told, [], [noMoreJokes], inp, rng⟩ := by
    rw [play_joke.eq_def]
    simp [hav]
  refine ⟨h1, ?_⟩
  rw [handle_client_eq_fail (by rw [h1]), h1]

/-- Claim C4 witness: a fully-told one-joke catalog, with pending input
that is provably not consumed. -/
theorem claim_C4_witness :
    (∀ i < ([⟨ str "Boo", str "Boo hoo"⟩] : List Joke).length,
      i ∈ ({0} : Finset Nat)) ∧
    play_joke [⟨ str "Boo", str "Boo hoo"⟩] {0} [3] [whosThere] =
      ⟨false, {0}, [], [noMoreJokes], [whosThere], [3]⟩ ∧
    handle_client [⟨ str "Boo", str "Boo hoo"⟩] {0} [3] [whosThere] =
      ⟨{0}, [], [noMoreJokes]⟩ :=
  ⟨by decide, claim_C4_exhaustion _ _ _ _ (by decide)⟩

/-- Claim C3: in the `AwaitKnockAck` state a matching reply leaves the
loop, a mismatching reply triggers exactly one correction line followed by
one fresh knock prompt and another read (looping until a match, or until
the input is exhausted, which models connection failure); and such a
mismatch changes nothing else: the whole `play_joke` result — outcome,
`told` set, selected joke indices, unread input and random state — is that
of the run without the wrong reply, the output differing only by the
correction-plus-prompt pair inserted after the initial knock prompt. -/
theorem claim_C3_knock_mismatch (c : Str) (rest : List Str)
    (jokes : List Joke) (told : Finset Nat) (rng : List Nat) :
    (iequals c whosThere = true → knockLoop (c :: rest) = ([], some rest)) ∧
    (iequals c whosThere = false →
      knockLoop (c :: rest) =
        (correctionLine whosThere :: knockPrompt :: (knockLoop rest).1,
          (knockLoop rest).2)) ∧
    knockLoop [] = ([], none) ∧
    (iequals c whosThere = false → availOf jokes told ≠ [] →
      (play_joke jokes told rng (c :: rest)).ok =
        (play_joke jokes told rng rest).ok ∧
      (play_joke jokes told rng (c :: rest)).told =
        (play_joke jokes told rng rest).told ∧
      (play_joke jokes told rng (c :: rest)).sels =
        (play_joke jokes told rng rest).sels ∧
      (play_joke jokes told rng (c :: rest)).inp =
        (play_joke jokes told rng rest).inp ∧
      (play_joke jokes told rng (c :: rest)).rng =
        (play_joke jokes told rng rest).rng ∧
      (play_joke jokes told rng rest).out =
        knockPrompt :: (play_joke jokes told rng rest).out.tail ∧
      (play_joke jokes told rng (c :: rest)).out =
        knockPrompt :: correctionLine whosThere :: knockPrompt ::
          (play_joke jokes told rng rest).out.tail) := by
  refine ⟨?_, ?_, rfl, ?_⟩
  · intro h
    simp [knockLoop, h]
  · intro h
    simp [knockLoop, h]
  · intro hc hav
    obtain ⟨hhead, heq⟩ := @play_joke_shift jokes told rng c rest hav hc
    rw [heq]
    exact ⟨rfl, rfl, rfl, rfl, rfl, hhead, rfl⟩

/-- Claim C3 witness: a concrete wrong first reply on a one-joke catalog. -/
theorem claim_C3_witness :
    iequals (str "hello") whosThere = false ∧
    availOf [⟨ str "Boo", str "Boo hoo"⟩] ∅ ≠ [] ∧
    (play_joke [⟨ str "Boo", str "Boo hoo"⟩] ∅ [0]
      (str "hello" :: [whosThere, whoAck (str "Boo")])).out =
      knockPrompt :: correctionLine whosThere :: knockPrompt ::
        (play_joke [⟨ str "Boo", str "Boo hoo"⟩] ∅ [0]
          [whosThere, whoAck (str "Boo")]).out.tail :=
  ⟨by decide, by decide,
    ((claim_C3_knock_mismatch (str "hello") [whosThere, whoAck (str "Boo")]
      [⟨ str "Boo", str "Boo hoo"⟩] ∅ [0]).2.2.2 (by decide)
      (by decide)).2.2.2.2.2.2⟩

/-- Claim C5: in the continuation sub-dialogue, a reply equal (after
trimming, case-insensitively) to `Y`/`yes` yields the decision to
continue, `N`/`no` the decision to stop, and anything else sends exactly
the reminder line and the verbatim Y/N prompt again, deferring the
decision to the remaining input with no other change; at session level, a
completed joke followed by a `yes`-decision makes the session loop run the
dialogue engine again, while a `no`-decision ends the session with no
output beyond the Y/N prompt sequence. -/
theorem claim_C5_continuation (c : Str) (rest : List Str)
    (jokes : List Joke) (told : Finset Nat) (rng : List Nat)
    (inp : List Str) :
    ((iequals c (str "Y") || iequals c (str "yes")) = true →
      askLoop (c :: rest) = ([ynPrompt], some (true, rest))) ∧
    ((iequals c (str "N") || iequals c (str "no")) = true →
      askLoop (c :: rest) = ([ynPrompt], some (false, rest))) ∧
    ((iequals c (str "N") || iequals c (str "no")) = false →
      (iequals c (str "Y") || iequals c (str "yes")) = false →
      askLoop (c :: rest) =
        (ynPrompt :: ynReminder :: (askLoop rest).1, (askLoop rest).2)) ∧
    ((play_joke jokes told rng inp).ok = true →
      ∀ aouts inp2,
        askLoop (play_joke jokes told rng inp).inp = (aouts, some (true, inp2)) →
        handle_client jokes told rng inp =
          ⟨(handle_client jokes (play_joke jokes told rng inp).told
              (play_joke jokes told rng inp).rng inp2).told,
            (play_joke jokes told rng inp).sels ++
              (handle_client jokes (play_joke jokes told rng inp).told
                (play_joke jokes told rng inp).rng inp2).sels,
            (play_joke jokes told rng inp).out ++ aouts ++
              (handle_client jokes (play_joke jokes told rng inp).told
                (play_joke jokes told rng inp).rng inp2).out⟩) ∧
    ((play_joke jokes told rng inp).ok = true →
      ∀ aouts inp2,
        askLoop (play_joke jokes told rng inp).inp = (aouts, some (false, inp2)) →
        handle_client jokes told rng inp =
          ⟨(play_joke jokes told rng inp).told,
            (play_joke jokes told rng inp).sels,
            (play_joke jokes told rng inp).out ++ aouts⟩) := by
  refine ⟨?_, ?_, ?_, ?_, ?_⟩
  · intro hY
    have hN := yes_imp_not_no hY
    simp [askLoop, hN, hY]
  · intro hN
    simp [askLoop, hN]
  · intro hN hY
    simp [askLoop, hN, hY]
  · intro hok aouts inp2 ha
    exact handle_client_eq_yes hok ha
  · intro hok aouts inp2 ha
    exact handle_client_eq_no hok ha

/-- Claim C5 witness: an invalid reply (`"maybe"`) then a lowercase
`"y"`, and the session-level `no` case, all at concrete inputs. -/
theorem claim_C5_witness :
    askLoop [ str "maybe", str "y"] =
      (ynPrompt :: ynReminder :: (askLoop [ str "y"]).1,
        (askLoop [ str "y"]).2) ∧
    askLoop [ str "y"] = ([ynPrompt], some (true, [])) ∧
    askLoop [ str " NO "] = ([ynPrompt], some (false, [])) ∧
    handle_client [⟨ str "Boo", str "Boo hoo"⟩] ∅ [0]
        [whosThere, whoAck (str "Boo"), str "n"] =
      ⟨(play_joke [⟨ str "Boo", str "Boo hoo"⟩] ∅ [0]
          [whosThere, whoAck (str "Boo"), str "n"]).told,
        (play_joke [⟨ str "Boo", str "Boo hoo"⟩] ∅ [0]
          [whosThere, whoAck (str "Boo"), str "n"]).sels,
        (play_joke [⟨ str "Boo", str "Boo hoo"⟩] ∅ [0]
          [whosThere, whoAck (str "Boo"), str "n"]).out ++ [ynPrompt]⟩ :=
  ⟨((claim_C5_continuation (str "maybe") [ str "y"] [] ∅ [] []).2.2.1
      (by decide) (by decide)),
    ((claim_C5_continuation (str "y") [] [] ∅ [] []).1 (by decide)),
    ((claim_C5_continuation (str " NO ") [] [] ∅ [] []).2.1 (by decide)),
    ((claim_C5_continuation (str "n") [] [⟨ str "Boo", str "Boo hoo"⟩] ∅ [0]
        [whosThere, whoAck (str "Boo"), str "n"]).2.2.2.2
      (by simp +decide [play_joke, availOf, knockLoop]) [ynPrompt] []
      (by simp +decide [play_joke, availOf, knockLoop, askLoop]))⟩

/-- Claim C6: the accept loop decides to shut the server down only after
the live counter has been observed equal to 0 on ticks spanning at least
10 seconds with no interruption — the trace up to the shutdown decision
contains a zero-observation tick at some time `t1`, a final
zero-observation tick at some `t2 ≥ t1 + 10`, and only zero-observation
ticks in between (in particular no accepted connection and no positive
observation); and whenever a tick observes a positive count or a
connection is accepted, the idle timer is stopped and no shutdown occurs
on that event. -/
theorem claim_C6_idle_shutdown (t0 : Nat) (evs : List MEvent) :
    ((mrun (minit t0) evs).shutdown = true →
      ∃ pre t1 mid t2 post,
        evs = pre ++ MEvent.tick t1 0 :: (mid ++ MEvent.tick t2 0 :: post) ∧
          t1 + 10 ≤ t2 ∧ ∀ e ∈ mid, zeroTick e = true) ∧
    (∀ s : MState, s.shutdown = false →
      ((mstep s MEvent.accept).timer_running = false ∧
        (mstep s MEvent.accept).shutdown = false) ∧
      (∀ now a, 0 < a →
        (mstep s (MEvent.tick now a)).timer_running = false ∧
        (mstep s (MEvent.tick now a)).shutdown = false)) := by
  refine ⟨(mrun_invariant t0 evs).2, ?_⟩
  intro s hs
  constructor
  · rw [mstep.eq_def, if_neg (by simp [hs])]
    exact ⟨rfl, hs⟩
  · intro now a ha
    rw [mstep.eq_def, if_neg (by simp [hs])]
    dsimp only
    rw [if_neg (by omega)]
    exact ⟨rfl, hs⟩

/-- Claim C6 witness: a concrete shutdown trace (ticks at 5 s and 16 s
with zero observations) and the extracted spanning decomposition. -/
theorem claim_C6_witness :
    (mrun (minit 0) [MEvent.tick 5 0, MEvent.tick 16 0]).shutdown = true ∧
    (∃ pre t1 mid t2 post,
      [MEvent.tick 5 0, MEvent.tick 16 0] =
        pre ++ MEvent.tick t1 0 :: (mid ++ MEvent.tick t2 0 :: post) ∧
        t1 + 10 ≤ t2 ∧ ∀ e ∈ mid, zeroTick e = true) ∧
    (mstep ⟨true, 5, false⟩ MEvent.accept).timer_running = false ∧
    (mstep ⟨true, 5, false⟩ (MEvent.tick 7 3)).timer_running = false :=
  ⟨by decide,
    (claim_C6_idle_shutdown 0 [MEvent.tick 5 0, MEvent.tick 16 0]).1 (by decide),
    ((claim_C6_idle_shutdown 0 []).2 ⟨true, 5, false⟩ (by decide)).1.1,
    (((claim_C6_idle_shutdown 0 []).2 ⟨true, 5, false⟩ (by decide)).2 7 3
      (by decide)).1⟩

/-- Claim C7: the reply comparison `iequals` accepts `a` against `b`
exactly when the two strings are identical after trimming
leading/trailing whitespace and lowercasing every byte; consequently
replies differing only in surrounding whitespace, or only in letter case,
are accepted or rejected identically, and nothing else is tolerated (the
characterization is an equivalence, not an approximation). -/
theorem claim_C7_comparison (a b : Str) :
    (iequals a b = true ↔ lower (trim a) = lower (trim b)) ∧
    (∀ ws1 ws2, (∀ x ∈ ws1, isWs x = true) → (∀ x ∈ ws2, isWs x = true) →
      iequals (ws1 ++ a ++ ws2) b = iequals a b) ∧
    (∀ a2, lower a2 = lower a → iequals a2 b = iequals a b) := by
  refine ⟨?_, ?_, ?_⟩
  · simp [iequals]
  · intro ws1 ws2 h1 h2
    unfold iequals
    rw [trim_ws_right h2, trim_ws_left h1]
  · intro a2 ha
    unfold iequals
    rw [← trim_lower, ha, trim_lower]

/-- Claim C7 witness: concrete whitespace- and case-variants of a reply
compare identically. -/
theorem claim_C7_witness :
    (iequals (str "  WHO ") (str "who") = true ↔
      lower (trim (str "  WHO ")) = lower (trim (str "who"))) ∧
    iequals ([32] ++ str "Who" ++ [9]) (str "wHo") = iequals (str "Who") (str "wHo") ∧
    iequals (str "wHO") (str "yes") = iequals (str "Who") (str "yes") :=
  ⟨(claim_C7_comparison (str "  WHO ") (str "who")).1,
    (claim_C7_comparison (str "Who") (str "wHo")).2.1 [32] [9]
      (by decide) (by decide),
    (claim_C7_comparison (str "Who") (str "yes")).2.2 (str "wHO") (by decide)⟩

/-- Claim C8: `recv_line` never yields an unbounded line: a successful
read returns at most 4097 bytes (the accumulating loop stops as soon as
the line exceeds the 4096 cap, treating it as complete), carriage returns
never appear in the returned line, and an exhausted stream (a zero-length
read) is reported as end-of-stream (`none`), never as a line — whatever
was accumulated so far. -/
theorem claim_C8_recv_bounded :
    (∀ acc : Str, recvLineAux acc [] = none) ∧
    (∀ stream line rest, recv_line stream = some (line, rest) →
      line.length ≤ 4097 ∧ 13 ∉ line) := by
  refine ⟨fun acc => rfl, ?_⟩
  intro stream line rest h
  unfold recv_line at h
  exact ⟨recvLineAux_bound (by simp) h,
    fun hm => recvLineAux_no_cr (by simp) h hm⟩

/-- Claim C8 witness: a concrete CRLF-terminated read. -/
theorem claim_C8_witness :
    recv_line (str "hi" ++ [13, 10, 97]) = some (str "hi", [97]) ∧
    (str "hi").length ≤ 4097 ∧ 13 ∉ str "hi" :=
  ⟨by decide,
    claim_C8_recv_bounded.2 (str "hi" ++ [13, 10, 97]) (str "hi") [97]
      (by decide)⟩

/-- Claim C10: on a single newline-terminated line longer than the cap,
`recv_line` returns its first 4097 bytes as a complete line and leaves the
remainder (including the newline) unconsumed in the stream; the next read
then returns that remainder — wholly (consuming the newline) when it fits
under the cap, and otherwise its first 4097 bytes as a prefix. -/
theorem claim_C10_cap_remainder (s rest : List Nat)
    (hs : ∀ b ∈ s, b ≠ 10 ∧ b ≠ 13) (hlong : 4096 < s.length) :
    recv_line (s ++ 10 :: rest) =
      some (s.take 4097, s.drop 4097 ++ 10 :: rest) ∧
    (s.length ≤ 8193 →
      recv_line (s.drop 4097 ++ 10 :: rest) = some (s.drop 4097, rest)) ∧
    (8193 < s.length →
      recv_line (s.drop 4097 ++ 10 :: rest) =
        some ((s.drop 4097).take 4097,
          (s.drop 4097).drop 4097 ++ 10 :: rest)) := by
  have hds : ∀ b ∈ s.drop 4097, b ≠ 10 ∧ b ≠ 13 :=
    fun b hb => hs b (List.mem_of_mem_drop hb)
  refine ⟨?_, ?_, ?_⟩
  · unfold recv_line
    have h := @recvLineAux_cap s hs [] (10 :: rest) (by simp)
      (by simp; omega)
    simpa using h
  · intro hle
    unfold recv_line
    have h := @recvLineAux_fits (s.drop 4097) hds [] rest
      (by simp; omega)
    simpa using h
  · intro hgt
    unfold recv_line
    have h := @recvLineAux_cap (s.drop 4097) hds [] (10 :: rest) (by simp)
      (by simp; omega)
    simpa using h

/-- Claim C10 witness: a 4200-byte line of `'a'`s followed by a newline
and one more byte. -/
theorem claim_C10_witness :
    recv_line (List.replicate 4200 97 ++ 10 :: [98]) =
      some ((List.replicate 4200 97).take 4097,
        (List.replicate 4200 97).drop 4097 ++ 10 :: [98]) ∧
    ((List.replicate 4200 97).length ≤ 8193 →
      recv_line ((List.replicate 4200 97).drop 4097 ++ 10 :: [98]) =
        some ((List.replicate 4200 97).drop 4097, [98])) ∧
    (8193 < (List.replicate 4200 97).length →
      recv_line ((List.replicate 4200 97).drop 4097 ++ 10 :: [98]) =
        some (((List.replicate 4200 97).drop 4097).take 4097,
          ((List.replicate 4200 97).drop 4097).drop 4097 ++ 10 :: [98])) :=
  claim_C10_cap_remainder (List.replicate 4200 97) [98]
    (fun b hb => by rw [List.eq_of_mem_replicate hb]; omega)
    (by rw [List.length_replicate]; omega)

end KnockServer
